import Mathlib

/-!
Verification development for the svgutils document model (src/libs/svg.js).

The file embeds the Svg aggregate and its operations as Lean definitions:
the pure traversal and serialization methods become Lean functions over a
list of elements, the asynchronous transform pipeline becomes a function
parameterized by a completion schedule, and the mutable-matrix discipline
of applyMatrix is additionally modelled by an explicit store of matrix
cells.  External collaborators (shape element classes, the matrix library,
the parsers) live outside src and are modelled from the specification;
each such definition carries a doc comment saying so.
-/

/-- Affine 2D matrix with entries (a b c d e f), representing the linear
map (x, y) to (a x + c y + e, b x + d y + f), the standard SVG layout.
Modelled from the spec: the Matrix collaborator (libs/matrix/extends) is
external to src; the spec describes it as an opaque affine transform with
order-sensitive composition (add), cloning, and a factory from a bounding
box and an element. -/
structure AffMatrix where
  a : Int
  b : Int
  c : Int
  d : Int
  e : Int
  f : Int
deriving DecidableEq, Repr

/-- Modelled from the spec: new Matrix() produces the identity transform. -/
def AffMatrix.identity : AffMatrix := ⟨1, 0, 0, 1, 0, 0⟩

/-- Modelled from the spec: composition of affine matrices, receiver first.
In JavaScript, m.add(n) mutates m to the composite; values here are pure,
mutation is treated explicitly in the store model below. -/
def AffMatrix.add (m n : AffMatrix) : AffMatrix :=
  ⟨m.a * n.a + m.c * n.b,
   m.b * n.a + m.d * n.b,
   m.a * n.c + m.c * n.d,
   m.b * n.c + m.d * n.d,
   m.a * n.e + m.c * n.f + m.e,
   m.b * n.e + m.d * n.f + m.f⟩

/-- Axis-aligned bounding box, as produced by an element getBBox call. -/
structure BBox where
  x : Int
  y : Int
  w : Int
  h : Int
deriving DecidableEq, Repr

/-- Shape element tree.  Modelled from the spec: the element classes are
external collaborators; the spec fixes one variant per SVG primitive kind,
each carrying an optional id, an optional pending transform matrix and
geometry data, with the group variant owning an ordered list of children
(a tree, never cyclic). -/
inductive Elem where
  | rect (id : Option String) (tr : Option AffMatrix) (x y w h : Int)
  | polygon (id : Option String) (tr : Option AffMatrix) (pts : List (Int × Int))
  | circle (id : Option String) (tr : Option AffMatrix) (cx cy r : Int)
  | path (id : Option String) (tr : Option AffMatrix) (d : String)
  | g (id : Option String) (tr : Option AffMatrix) (childs : List Elem)
deriving Repr

instance : Inhabited Elem := ⟨Elem.rect none none 0 0 0 0⟩

/-- Type discriminant string of an element (the elem.type field). -/
def Elem.typeOf : Elem → String
  | .rect _ _ _ _ _ _ => "rect"
  | .polygon _ _ _ => "polygon"
  | .circle _ _ _ _ _ => "circle"
  | .path _ _ _ => "path"
  | .g _ _ _ => "g"

/-- Optional id of an element (the elem.id field). -/
def Elem.idOf : Elem → Option String
  | .rect id _ _ _ _ _ => id
  | .polygon id _ _ => id
  | .circle id _ _ _ _ => id
  | .path id _ _ => id
  | .g id _ _ => id

/-- Bounding box of a nonempty point list. -/
def bboxOfPoints : List (Int × Int) → Option BBox
  | [] => none
  | p :: ps =>
    let xs := (p :: ps).map Prod.fst
    let ys := (p :: ps).map Prod.snd
    let x0 := xs.foldl min p.1
    let y0 := ys.foldl min p.2
    let x1 := xs.foldl max p.1
    let y1 := ys.foldl max p.2
    some ⟨x0, y0, x1 - x0, y1 - y0⟩

/-- Modelled from the spec: per-element bounding-box computation is
delegated to the element collaborator and may fail (spec section 7,
geometry errors).  Rectangles, nonempty polygons and circles succeed;
path elements fail because the system does not implement path-data curve
mathematics (spec section 1), and the spec does not define a group
bounding box, so groups fail as well. -/
def Elem.getBBox : Elem → Option BBox
  | .rect _ _ x y w h => some ⟨x, y, w, h⟩
  | .polygon _ _ pts => bboxOfPoints pts
  | .circle _ _ cx cy r => some ⟨cx - r, cy - r, 2 * r, 2 * r⟩
  | .path _ _ _ => none
  | .g _ _ _ => none

/-- Apply an affine matrix to one point. -/
def tp (m : AffMatrix) (p : Int × Int) : Int × Int :=
  (m.a * p.1 + m.c * p.2 + m.e, m.b * p.1 + m.d * p.2 + m.f)

/-- Modelled from the spec: Matrix.fromElement derives an element-specific
matrix from the bounding box and the element; the spec leaves the formula
to the collaborator, modelled here as the translation carrying the origin
to the bounding-box corner. -/
def AffMatrix.fromElement (bb : BBox) (_e : Elem) : AffMatrix :=
  ⟨1, 0, 0, 1, bb.x, bb.y⟩

/-- Modelled from the spec: per-element matrix application, producing a new
element whose variant may change; a rect becomes a polygon carrying its
four transformed corners (spec section 8, rect normalization); the result
records the applied matrix as its pending transform.  Path elements fail
(curve mathematics not implemented) and the spec does not define group
application, so it fails as well. -/
def Elem.applyMatrix : Elem → AffMatrix → Option Elem
  | .rect id _ x y w h, m =>
      some (.polygon id (some m)
        [tp m (x, y), tp m (x + w, y), tp m (x + w, y + h), tp m (x, y + h)])
  | .polygon id _ pts, m => some (.polygon id (some m) (pts.map (tp m)))
  | .circle id _ cx cy r, m =>
      some (.circle id (some m) (m.a * cx + m.c * cy + m.e) (m.b * cx + m.d * cy + m.f) r)
  | .path _ _ _, _ => none
  | .g _ _ _, _ => none

/-- Pending-transform accessor of an element (the transform attribute). -/
def Elem.trOf : Elem → Option AffMatrix
  | .rect _ tr _ _ _ _ => tr
  | .polygon _ tr _ => tr
  | .circle _ tr _ _ _ => tr
  | .path _ tr _ => tr
  | .g _ tr _ => tr

/-- JSON value of one element.  Modelled from the spec: elements serialize
to a JSON-like structure carrying the type tag, the optional id, the
geometry attributes, the optional transform (suppressed when the caller
asks for it) and, for groups, the serialized children. -/
inductive ElemJson where
  | mk (typ : String) (id : Option String) (transform : Option AffMatrix)
       (data : List (String × Int)) (childs : List ElemJson)

/-- Geometry attribute list used by the element JSON model. -/
def Elem.geomData : Elem → List (String × Int)
  | .rect _ _ x y w h => [("x", x), ("y", y), ("width", w), ("height", h)]
  | .polygon _ _ pts =>
      (List.range pts.length).zip (pts.map Prod.fst) |>.map (fun p => ("x" ++ toString p.1, p.2))
  | .circle _ _ cx cy r => [("cx", cx), ("cy", cy), ("r", r)]
  | .path _ _ _ => []
  | .g _ _ _ => []

mutual

/-- Modelled from the spec: element toJSON, delegated to each element; the
boolean flag, when true, suppresses the transform attribute. -/
def Elem.toJSON : Elem → Bool → ElemJson
  | e@(.g id tr cs), m => .mk "g" id (if m then none else tr) (Elem.geomData e) (elemsToJSON cs m)
  | e, m => .mk (Elem.typeOf e) (Elem.idOf e) (if m then none else Elem.trOf e) (Elem.geomData e) []

/-- Serialization of a list of child elements, in order. -/
def elemsToJSON : List Elem → Bool → List ElemJson
  | [], _ => []
  | e :: rest, m => Elem.toJSON e m :: elemsToJSON rest m

end

/-- One XML tag node: tag name, attribute list, children.  Modelled from
the spec: the XML serialization primitives are an external black box that
turns one element into a tag-tree fragment. -/
inductive XmlNode where
  | node (tag : String) (attrs : List (String × String)) (children : List XmlNode)

/-- Serialize an attribute list. -/
def attrsString (attrs : List (String × String)) : String :=
  attrs.foldl (fun s a => s ++ " " ++ a.1 ++ "=\"" ++ a.2 ++ "\"") ""

mutual

/-- Serialize one XML node to a string. -/
def XmlNode.toString : XmlNode → String
  | .node tag attrs cs =>
      "<" ++ tag ++ attrsString attrs ++ ">" ++ XmlNode.childrenString cs ++ "</" ++ tag ++ ">"

/-- Serialize a child list, concatenating in order. -/
def XmlNode.childrenString : List XmlNode → String
  | [] => ""
  | c :: rest => XmlNode.toString c ++ XmlNode.childrenString rest

end

/-- Render a matrix as an SVG transform attribute value. -/
def AffMatrix.toAttr (m : AffMatrix) : String :=
  "matrix(" ++ toString m.a ++ "," ++ toString m.b ++ "," ++ toString m.c ++ ","
    ++ toString m.d ++ "," ++ toString m.e ++ "," ++ toString m.f ++ ")"

/-- Attribute list for the optional id. -/
def idAttrs : Option String → List (String × String)
  | none => []
  | some i => [("id", i)]

/-- Attribute list for the optional transform, suppressed when the flag
asks for a representation without the transform attribute. -/
def trAttrs (m : Bool) : Option AffMatrix → List (String × String)
  | none => []
  | some t => if m then [] else [("transform", AffMatrix.toAttr t)]

/-- Points attribute value of a polygon. -/
def ptsAttr (pts : List (Int × Int)) : String :=
  String.intercalate " " (pts.map (fun p => toString p.1 ++ "," ++ toString p.2))

mutual

/-- Modelled from the spec: element toXml, delegated to each element,
producing its own tag fragment; groups nest their serialized children. -/
def Elem.toXml : Elem → Bool → XmlNode
  | .rect id tr x y w h, m =>
      .node "rect" (idAttrs id ++ [("x", toString x), ("y", toString y),
        ("width", toString w), ("height", toString h)] ++ trAttrs m tr) []
  | .polygon id tr pts, m =>
      .node "polygon" (idAttrs id ++ [("points", ptsAttr pts)] ++ trAttrs m tr) []
  | .circle id tr cx cy r, m =>
      .node "circle" (idAttrs id ++ [("cx", toString cx), ("cy", toString cy),
        ("r", toString r)] ++ trAttrs m tr) []
  | .path id tr d, m => .node "path" (idAttrs id ++ [("d", d)] ++ trAttrs m tr) []
  | .g id tr cs, m => .node "g" (idAttrs id ++ trAttrs m tr) (elemsToXml cs m)

/-- Serialization of a list of child elements to XML nodes, in order. -/
def elemsToXml : List Elem → Bool → List XmlNode
  | [], _ => []
  | e :: rest, m => Elem.toXml e m :: elemsToXml rest m

end

/-- The Svg document aggregate: owns an ordered list of top-level
elements (this.elements in the source). -/
structure Svg where
  elements : List Elem

/-- JSON document shape produced by Svg.prototype.toJSON. -/
structure SvgJson where
  elements : List ElemJson

/-- Svg.prototype.setElements: replaces the element list wholesale. -/
def Svg.setElements (_s : Svg) (elements : List Elem) : Svg := ⟨elements⟩

/-- Svg.prototype.addElement: appends one element. -/
def Svg.addElement (s : Svg) (e : Elem) : Svg := ⟨s.elements ++ [e]⟩

/-- Svg.prototype.toJSON: starts from an empty elements array and pushes
each owned element serialization in order (the underscore each loop). -/
def Svg.toJSON (s : Svg) (matrix : Bool) : SvgJson :=
  ⟨s.elements.foldl (fun acc e => acc ++ [Elem.toJSON e matrix]) []⟩

/-- Svg.prototype.toXml: builds the root svg node with version and xmlns
attributes and imports each element fragment as a child, in order. -/
def Svg.toXml (s : Svg) (matrix : Bool) : XmlNode :=
  XmlNode.node "svg" [("version", "1.1"), ("xmlns", "http://www.w3.org/2000/svg")]
    (s.elements.foldl (fun cs e => cs ++ [Elem.toXml e matrix]) [])

/-- Svg.prototype.toString: when content is true, serializes the full
wrapped document built by toXml; otherwise accumulates each element
fragment string by string concatenation, with no wrapping tag. -/
def Svg.toString (s : Svg) (content : Bool) (matrix : Bool) : String :=
  if content then (Svg.toXml s matrix).toString
  else s.elements.foldl (fun str e => str ++ (Elem.toXml e matrix).toString) ""

/-- Svg.prototype.findByType, as a function of the element list: for each
element in order, the element is appended when its type matches, and when
the all flag is set and the element is a group, the matches the group
finds are appended right after it (the group collaborator lives outside
src; modelled from the spec: it descends into every nested group,
appending its own matching children and matches of nested groups, never
double-adding a group unless its own type matches). -/
def Svg.findByTypeList (t : String) (all : Bool) : List Elem → List Elem
  | [] => []
  | Elem.g id tr cs :: rest =>
      (if ("g" : String) == t then [Elem.g id tr cs] else []) ++
      (if all then Svg.findByTypeList t all cs else []) ++
      Svg.findByTypeList t all rest
  | e :: rest =>
      (if Elem.typeOf e == t then [e] else []) ++ Svg.findByTypeList t all rest

/-- Svg.prototype.findByType: returns a new Svg with the selected
elements. -/
def Svg.findByType (s : Svg) (t : String) (all : Bool) : Svg :=
  ⟨Svg.findByTypeList t all s.elements⟩

/-- Svg.prototype.findById, as a fold over the element list carrying the
returnElem accumulator: a direct id match overwrites the accumulator with
the element, otherwise a group overwrites it with the result of the
recursive search of the group (modelled from the spec: the group
collaborator searches its children by the same scheme, starting from
null), and any other element leaves it unchanged. -/
def Svg.findByIdGo (i : String) : Option Elem → List Elem → Option Elem
  | acc, [] => acc
  | _acc, Elem.g id tr cs :: rest =>
      Svg.findByIdGo i
        (if id == some i then some (Elem.g id tr cs) else Svg.findByIdGo i none cs) rest
  | acc, e :: rest =>
      Svg.findByIdGo i (if Elem.idOf e == some i then some e else acc) rest

/-- Svg.prototype.findById: runs the fold with a null accumulator. -/
def Svg.findById (s : Svg) (i : String) : Option Elem :=
  Svg.findByIdGo i none s.elements

/-- All ids occurring anywhere in an element tree, in depth-first order. -/
def collectIds : List Elem → List String
  | [] => []
  | Elem.g id _ cs :: rest =>
      (match id with | some i => [i] | none => []) ++ collectIds cs ++ collectIds rest
  | e :: rest =>
      (match Elem.idOf e with | some i => [i] | none => []) ++ collectIds rest

/-- Whether some element anywhere in the tree carries the given id. -/
def hasId (es : List Elem) (i : String) : Bool := (collectIds es).contains i

/-- Argument accepted by Svg.prototype.applyMatrix: null, a single matrix,
or an array of matrices. -/
inductive MatrixArg where
  | null
  | one (m : AffMatrix)
  | many (ms : List AffMatrix)

/-- Base matrix set up by applyMatrix (lines 145 to 154 of the source):
a fresh Matrix is constructed; a null argument leaves it as is, an array
argument is folded onto it with add in order, and a single matrix
argument replaces it (the variable then aliases the caller matrix, an
aliasing treated in the store model below; the value is the same). -/
def baseMatrix : MatrixArg → AffMatrix
  | .null => AffMatrix.identity
  | .one m => m
  | .many ms => ms.foldl AffMatrix.add AffMatrix.identity

/-- Per-element chain of the pipeline (lines 157 to 160 of the source):
compute the bounding box, clone the base matrix, compose the
element-derived matrix onto the clone, and ask the element to apply the
result.  Cloning is a value copy, so it is the identity here; the store
model below treats it as allocation. -/
def transformChain (base : AffMatrix) (e : Elem) : Option Elem :=
  match Elem.getBBox e with
  | none => none
  | some bb => Elem.applyMatrix e (AffMatrix.add base (AffMatrix.fromElement bb e))

/-- Results gathered by the concurrent pipeline, indexed by a completion
schedule: the output document receives one element per completed chain,
in completion order.  The chains of async.each signal completion with a
bare c() and the final callback passes only the new Svg, so there is no
error channel: a chain that fails never completes, the final callback
never fires, and the whole run yields none (the caller receives
nothing). -/
def collectChains (base : AffMatrix) (elems : List Elem) : List Nat → Option (List Elem)
  | [] => some []
  | i :: rest =>
      ((elems.get? i).bind (transformChain base)).bind (fun e2 =>
        (collectChains base elems rest).map (fun out => e2 :: out))

/-- Svg.prototype.applyMatrix, value level: the completion schedule sched
lists the input indices in the order their asynchronous chains complete;
some svg means the callback fired with that document, none means it never
fired. -/
def Svg.applyMatrix (s : Svg) (arg : MatrixArg) (sched : List Nat) : Option Svg :=
  (collectChains (baseMatrix arg) s.elements sched).map (fun es => ⟨es⟩)

/-- Store of matrix objects: the JavaScript Matrix values are mutable
objects, modelled as cells indexed by allocation order. -/
structure MStore where
  cells : List AffMatrix

/-- Read a cell (out-of-range reads return the identity; never relied
upon). -/
def MStore.read (s : MStore) (r : Nat) : AffMatrix := s.cells.getD r AffMatrix.identity

/-- Allocate a new cell, returning its reference. -/
def MStore.alloc (s : MStore) (v : AffMatrix) : MStore × Nat :=
  (⟨s.cells ++ [v]⟩, s.cells.length)

/-- Overwrite a cell in place. -/
def MStore.write (s : MStore) (r : Nat) (v : AffMatrix) : MStore := ⟨s.cells.set r v⟩

/-- Matrix clone: allocates a fresh object holding the value of the
receiver (modelled from the spec: the collaborator supports cloning). -/
def MStore.clone (s : MStore) (r : Nat) : MStore × Nat := s.alloc (s.read r)

/-- Matrix add, heap level: mutates the receiver object in place to the
composite (modelled from the spec: composition mutates the receiver,
which is exactly why applyMatrix clones first). -/
def MStore.addAt (s : MStore) (r : Nat) (v : AffMatrix) : MStore :=
  s.write r ((s.read r).add v)

/-- Argument of applyMatrix at heap level: references into the store. -/
inductive MatrixArgRef where
  | null
  | one (r : Nat)
  | many (rs : List Nat)

/-- Lines 145 to 154 at heap level: new Matrix() allocates a fresh
identity cell; an array argument folds add into that fresh cell, reading
each caller matrix; a single matrix argument makes the variable alias the
caller object itself. -/
def MStore.setupBase (s : MStore) : MatrixArgRef → MStore × Nat
  | .null => s.alloc AffMatrix.identity
  | .one r => ((s.alloc AffMatrix.identity).1, r)
  | .many rs =>
      let p := s.alloc AffMatrix.identity
      (rs.foldl (fun st rm => st.addAt p.2 (st.read rm)) p.1, p.2)

/-- Lines 157 to 160 at heap level, one chain per element: each chain
clones the base object into a fresh cell and mutates only that clone by
composing the element-derived matrix onto it.  Chains whose bounding box
fails never run their continuation.  Returns the final store and the list
of clone references the chains mutated. -/
def runChains (rBase : Nat) : MStore → List Elem → MStore × List Nat
  | s, [] => (s, [])
  | s, e :: rest =>
    match Elem.getBBox e with
    | none => runChains rBase s rest
    | some bb =>
      let p := s.clone rBase
      let s2 := p.1.addAt p.2 (AffMatrix.fromElement bb e)
      let q := runChains rBase s2 rest
      (q.1, p.2 :: q.2)

/-- Svg.prototype.applyMatrix at heap level: set up the base matrix, then
run the per-element chains. -/
def Svg.applyMatrixStore (s : MStore) (arg : MatrixArgRef) (elems : List Elem) :
    MStore × List Nat :=
  runChains (s.setupBase arg).2 (s.setupBase arg).1 elems

/-- Outcome of one call to an error-first-callback entry point: ok and
err are the two callback invocations, threw means an exception escaped
the call and the callback never ran. -/
inductive Outcome (α : Type) where
  | ok (v : α)
  | err (e : String)
  | threw (e : String)

/-- Document shape consumed by the parser collaborator. -/
structure JsonDoc where
  elements : List Elem

/-- Modelled from the spec: SvgParser.convertJson, the external parser
collaborator, converts an already-parsed JSON value into the ordered
element list, reporting failure through its error-first callback; the
minimal model always succeeds with the carried elements. -/
def SvgParser.convertJson (j : JsonDoc) : Except String (List Elem) := .ok j.elements

/-- Modelled from the spec: JSON.parse, which throws a SyntaxError on
malformed input.  Minimal model: exactly the empty braced object parses,
carrying no elements; enough to exhibit both the success and the failure
branch of the caller. -/
def jsonParse (s : String) : Except String JsonDoc :=
  if s = "\x7b\x7d" then .ok ⟨[]⟩
  else .error "SyntaxError: Unexpected token"

/-- Svg.fromJson: delegates to the parser collaborator and signals both
outcomes through the callback. -/
def Svg.fromJson (j : JsonDoc) : Outcome Svg :=
  match SvgParser.convertJson j with
  | .error e => .err e
  | .ok es => .ok ⟨es⟩

/-- Svg.fromJsonString: calls JSON.parse outside any try or catch block,
so a parse failure escapes as an exception and the callback is never
invoked; on success it delegates to fromJson. -/
def Svg.fromJsonString (s : String) : Outcome Svg :=
  match jsonParse s with
  | .error e => .threw e
  | .ok j => Svg.fromJson j


/-- Top-level elements of matching type, in encounter order: the
specification wording for the non-recursive findByType. -/
def topMatches (t : String) (es : List Elem) : List Elem :=
  es.filter (fun e => Elem.typeOf e == t)

/-- Depth-first matches, the amended wording for the recursive
findByType: each top-level element contributes itself when it matches,
immediately followed by the matches found inside it when it is a group,
before any later top-level element is considered. -/
def dfsMatches (t : String) : List Elem → List Elem
  | [] => []
  | Elem.g id tr cs :: rest =>
      (if ("g" : String) == t then [Elem.g id tr cs] else []) ++
      dfsMatches t cs ++ dfsMatches t rest
  | e :: rest => (if Elem.typeOf e == t then [e] else []) ++ dfsMatches t rest

/-- Concrete rectangle used by the pipeline theorems. -/
def rectA : Elem := Elem.rect (some "A") none 0 0 1 1

/-- Second concrete rectangle used by the pipeline theorems. -/
def rectB : Elem := Elem.rect (some "B") none 0 0 2 2

/-- Concrete translation matrix. -/
def mTr : AffMatrix := ⟨1, 0, 0, 1, 1, 0⟩

/-- Concrete scaling matrix. -/
def mSc : AffMatrix := ⟨2, 0, 0, 2, 0, 0⟩

/-- Concrete rectangle found inside a group. -/
def rect1 : Elem := Elem.rect (some "r1") none 0 0 1 1

/-- Concrete top-level rectangle. -/
def rect2 : Elem := Elem.rect (some "r2") none 2 2 3 3

/-- Document whose unique id sits before a trailing non-matching group. -/
def docTrailingGroup : List Elem :=
  [Elem.rect (some "a") none 0 0 1 1, Elem.g none none []]

/-- Pipeline output for rectA under the identity base matrix. -/
def polyA : Elem :=
  Elem.polygon (some "A") (some AffMatrix.identity) [(0, 0), (1, 0), (1, 1), (0, 1)]

/-- Pipeline output for rectB under the identity base matrix. -/
def polyB : Elem :=
  Elem.polygon (some "B") (some AffMatrix.identity) [(0, 0), (2, 0), (2, 2), (0, 2)]

/-! Helper lemmas. -/

/-- Composing onto a fresh identity matrix gives back the composed
matrix. -/
theorem AffMatrix.identity_add (m : AffMatrix) :
    AffMatrix.add AffMatrix.identity m = m := by
  cases m
  simp [AffMatrix.add, AffMatrix.identity]

/-- The base matrix built from a two-matrix array is their composite. -/
theorem baseMatrix_pair (m1 m2 : AffMatrix) :
    baseMatrix (MatrixArg.many [m1, m2]) = AffMatrix.add m1 m2 := by
  simp [baseMatrix, AffMatrix.identity_add]

/-- A successful pipeline run produces one output per scheduled chain. -/
theorem collectChains_length (b : AffMatrix) (es : List Elem) :
    ∀ (sched : List Nat) (out : List Elem),
      collectChains b es sched = some out → out.length = sched.length := by
  intro sched
  induction sched with
  | nil =>
    intro out h
    simp only [collectChains, Option.some.injEq] at h
    simp [← h]
  | cons i rest ih =>
    intro out h
    simp only [collectChains, Option.bind_eq_some, Option.map_eq_some'] at h
    obtain ⟨e2, _h1, out2, h2, h3⟩ := h
    rw [← h3]
    simp [ih out2 h2]

/-- A successful pipeline run means every scheduled chain succeeded. -/
theorem collectChains_some_forall (b : AffMatrix) (es : List Elem) :
    ∀ (sched : List Nat) (out : List Elem),
      collectChains b es sched = some out →
      ∀ i ∈ sched, ∃ e2, (es.get? i).bind (transformChain b) = some e2 := by
  intro sched
  induction sched with
  | nil => intro out _ i hi; exact absurd hi (List.not_mem_nil i)
  | cons j rest ih =>
    intro out h i hi
    simp only [collectChains, Option.bind_eq_some, Option.map_eq_some'] at h
    obtain ⟨e2, h1, out2, h2, _h3⟩ := h
    rcases List.mem_cons.mp hi with hij | hmem
    · subst hij
      obtain ⟨a, ha1, ha2⟩ := h1
      exact ⟨e2, by rw [ha1, Option.some_bind]; exact ha2⟩
    · exact ih out2 h2 i hmem

/-- When every scheduled chain succeeds with a known result, the pipeline
output lists those results in schedule order. -/
theorem collectChains_map (b : AffMatrix) (es : List Elem) (g : Nat → Elem) :
    ∀ (sched : List Nat),
      (∀ i ∈ sched, (es.get? i).bind (transformChain b) = some (g i)) →
      collectChains b es sched = some (sched.map g) := by
  intro sched
  induction sched with
  | nil => intro _; simp [collectChains]
  | cons i rest ih =>
    intro h
    simp only [collectChains]
    rw [h i (List.mem_cons_self i rest), Option.some_bind,
        ih (fun j hj => h j (List.mem_cons_of_mem i hj))]
    rfl

/-- The pipeline yields nothing exactly when some scheduled chain fails. -/
theorem collectChains_none_iff (b : AffMatrix) (es : List Elem) :
    ∀ (sched : List Nat),
      (collectChains b es sched = none ↔
        ∃ i ∈ sched, (es.get? i).bind (transformChain b) = none) := by
  intro sched
  induction sched with
  | nil => simp [collectChains]
  | cons i rest ih =>
    simp only [collectChains]
    cases hx : (es.get? i).bind (transformChain b) with
    | none =>
      simp only [Option.none_bind]
      constructor
      · intro _; exact ⟨i, List.mem_cons_self i rest, hx⟩
      · intro _; trivial
    | some e2 =>
      simp only [Option.some_bind, Option.map_eq_none', ih]
      constructor
      · rintro ⟨j, hj, hnone⟩
        exact ⟨j, List.mem_cons_of_mem i hj, hnone⟩
      · rintro ⟨j, hj, hnone⟩
        rcases List.mem_cons.mp hj with hji | hmem
        · rw [hji] at hnone; rw [hnone] at hx; exact absurd hx (by simp)
        · exact ⟨j, hmem, hnone⟩

/-- A callback invocation with a document corresponds to a successful
collection over the element list. -/
theorem applyMatrix_eq_some (s : Svg) (arg : MatrixArg) (sched : List Nat) (out : Svg) :
    Svg.applyMatrix s arg sched = some out ↔
      collectChains (baseMatrix arg) s.elements sched = some out.elements := by
  obtain ⟨oes⟩ := out
  unfold Svg.applyMatrix
  cases h : collectChains (baseMatrix arg) s.elements sched with
  | none => simp
  | some es => simp [Svg.mk.injEq]

/-- Allocation preserves existing cells. -/
theorem MStore.read_alloc_lt (s : MStore) (v : AffMatrix) (j : Nat)
    (h : j < s.cells.length) : ((s.alloc v).1).read j = s.read j := by
  simp [MStore.alloc, MStore.read, List.getD_eq_getElem?_getD, List.getElem?_append, h]

/-- Allocation grows the store by one cell. -/
theorem MStore.length_alloc (s : MStore) (v : AffMatrix) :
    (s.alloc v).1.cells.length = s.cells.length + 1 := by
  simp [MStore.alloc]

/-- Writing preserves the store size. -/
theorem MStore.length_write (s : MStore) (r : Nat) (v : AffMatrix) :
    (s.write r v).cells.length = s.cells.length := by
  simp [MStore.write]

/-- Writing one cell leaves every other cell unchanged. -/
theorem MStore.read_write_ne (s : MStore) (r : Nat) (v : AffMatrix) (j : Nat)
    (h : j ≠ r) : (s.write r v).read j = s.read j := by
  simp [MStore.write, MStore.read, List.getD_eq_getElem?_getD,
    List.getElem?_set_ne (Ne.symm h)]

/-- In-place composition preserves the store size. -/
theorem MStore.length_addAt (s : MStore) (r : Nat) (v : AffMatrix) :
    (s.addAt r v).cells.length = s.cells.length := MStore.length_write _ _ _

/-- In-place composition mutates only the receiver cell. -/
theorem MStore.read_addAt_ne (s : MStore) (r : Nat) (v : AffMatrix) (j : Nat)
    (h : j ≠ r) : (s.addAt r v).read j = s.read j := MStore.read_write_ne _ _ _ _ h

/-- Every chain of the pipeline mutates only the fresh clone it
allocates: the store only grows, every preexisting cell keeps its value,
the returned clone references are fresh, within bounds, and pairwise
distinct. -/
theorem runChains_spec (rB : Nat) :
    ∀ (elems : List Elem) (s : MStore),
      s.cells.length ≤ (runChains rB s elems).1.cells.length
      ∧ (∀ j, j < s.cells.length → (runChains rB s elems).1.read j = s.read j)
      ∧ (∀ q ∈ (runChains rB s elems).2,
          s.cells.length ≤ q ∧ q < (runChains rB s elems).1.cells.length)
      ∧ (runChains rB s elems).2.Nodup := by
  intro elems
  induction elems with
  | nil => intro s; simp [runChains]
  | cons e rest ih =>
    intro s
    cases hb : Elem.getBBox e with
    | none =>
      have hrw : runChains rB s (e :: rest) = runChains rB s rest := by
        simp [runChains, hb]
      rw [hrw]
      exact ih s
    | some bb =>
      have hrw : runChains rB s (e :: rest)
          = ((runChains rB
                (((s.alloc (s.read rB)).1).addAt s.cells.length (AffMatrix.fromElement bb e))
                rest).1,
             s.cells.length
               :: (runChains rB
                     (((s.alloc (s.read rB)).1).addAt s.cells.length (AffMatrix.fromElement bb e))
                     rest).2) := by
        simp [runChains, hb, MStore.clone, MStore.alloc]
      rw [hrw]
      dsimp only
      obtain ⟨ih1, ih2, ih3, ih4⟩ :=
        ih (((s.alloc (s.read rB)).1).addAt s.cells.length (AffMatrix.fromElement bb e))
      have hlen2 : (((s.alloc (s.read rB)).1).addAt s.cells.length
          (AffMatrix.fromElement bb e)).cells.length = s.cells.length + 1 := by
        rw [MStore.length_addAt, MStore.length_alloc]
      refine ⟨?_, ?_, ?_, ?_⟩
      · rw [hlen2] at ih1; omega
      · intro j hj
        rw [ih2 j (by omega)]
        rw [MStore.read_addAt_ne _ _ _ _ (by omega), MStore.read_alloc_lt _ _ _ hj]
      · intro q hq
        rcases List.mem_cons.mp hq with hq1 | hq2
        · subst hq1
          rw [hlen2] at ih1
          exact ⟨Nat.le_refl _, by omega⟩
        · obtain ⟨hge, hlt⟩ := ih3 q hq2
          rw [hlen2] at hge
          exact ⟨by omega, hlt⟩
      · refine List.Nodup.cons ?_ ih4
        intro hmem
        obtain ⟨hge, _⟩ := ih3 _ hmem
        rw [hlen2] at hge
        omega

/-- Folding add over caller matrices preserves the store size. -/
theorem foldAdd_length (r0 : Nat) :
    ∀ (rs : List Nat) (st : MStore),
      (rs.foldl (fun acc rm => acc.addAt r0 (acc.read rm)) st).cells.length
        = st.cells.length := by
  intro rs
  induction rs with
  | nil => intro st; rfl
  | cons r rest ih =>
    intro st
    rw [List.foldl_cons, ih, MStore.length_addAt]

/-- Folding add over caller matrices mutates only the receiver cell. -/
theorem foldAdd_read_ne (r0 j : Nat) (h : j ≠ r0) :
    ∀ (rs : List Nat) (st : MStore),
      (rs.foldl (fun acc rm => acc.addAt r0 (acc.read rm)) st).read j = st.read j := by
  intro rs
  induction rs with
  | nil => intro st; rfl
  | cons r rest ih =>
    intro st
    rw [List.foldl_cons, ih, MStore.read_addAt_ne _ _ _ _ h]

/-- Setting up the base matrix allocates exactly one fresh cell. -/
theorem setupBase_length (s : MStore) (arg : MatrixArgRef) :
    ((s.setupBase arg).1).cells.length = s.cells.length + 1 := by
  cases arg with
  | null => exact MStore.length_alloc _ _
  | one r => exact MStore.length_alloc _ _
  | many rs =>
    simp only [MStore.setupBase]
    rw [foldAdd_length, MStore.length_alloc]

/-- Setting up the base matrix leaves every caller cell unchanged. -/
theorem setupBase_read_lt (s : MStore) (arg : MatrixArgRef) (j : Nat)
    (h : j < s.cells.length) : ((s.setupBase arg).1).read j = s.read j := by
  cases arg with
  | null => exact MStore.read_alloc_lt _ _ _ h
  | one r => exact MStore.read_alloc_lt _ _ _ h
  | many rs =>
    simp only [MStore.setupBase]
    rw [foldAdd_read_ne _ _ (by simp [MStore.alloc]; omega),
      MStore.read_alloc_lt _ _ _ h]

/-- Folding string append over a list hoists a prefix out. -/
theorem foldl_append_hoist :
    ∀ (l : List String) (x y : String),
      l.foldl (fun u v => u ++ v) (x ++ y) = x ++ l.foldl (fun u v => u ++ v) y := by
  intro l
  induction l with
  | nil => intro x y; rfl
  | cons a rest ih =>
    intro x y
    rw [List.foldl_cons, List.foldl_cons, String.append_assoc, ih]

/-- Joining a nonempty list of strings peels off the head. -/
theorem join_cons_str (a : String) (l : List String) :
    String.join (a :: l) = a ++ String.join l := by
  show l.foldl (fun u v => u ++ v) ("" ++ a) = a ++ String.join l
  rw [String.empty_append]
  have h := foldl_append_hoist l a ""
  rw [String.append_empty] at h
  exact h

/-- Accumulating element fragment strings is the join of the fragment
list. -/
theorem foldl_string_fragments (m : Bool) :
    ∀ (l : List Elem) (acc : String),
      l.foldl (fun str e => str ++ (Elem.toXml e m).toString) acc
        = acc ++ String.join (l.map (fun e => (Elem.toXml e m).toString)) := by
  intro l
  induction l with
  | nil =>
    intro acc
    rw [List.map_nil, List.foldl_nil,
      show String.join ([] : List String) = "" from rfl, String.append_empty]
  | cons e rest ih =>
    intro acc
    rw [List.foldl_cons, List.map_cons, ih, join_cons_str, String.append_assoc]

/-- Prepending a conditional singleton is a conditional cons. -/
theorem cons_if_append {α : Type} (c : Prop) [Decidable c] (e : α) (l : List α) :
    (if c then [e] else []) ++ l = if c then e :: l else l := by
  split <;> simp

/-- The non-recursive findByType keeps exactly the matching top-level
elements, in encounter order. -/
theorem findByTypeList_false_eq (t : String) :
    ∀ (es : List Elem), Svg.findByTypeList t false es = topMatches t es := by
  intro es
  induction es with
  | nil => simp [Svg.findByTypeList, topMatches]
  | cons e rest ih =>
    cases e <;>
      simp only [Svg.findByTypeList, topMatches, List.filter_cons, Elem.typeOf,
        Bool.false_and, if_false, List.append_nil, List.nil_append] <;>
      rw [ih] <;>
      simp [topMatches, cons_if_append, Elem.typeOf]

/-- The recursive findByType is the interleaved depth-first traversal. -/
theorem findByTypeList_true_eq (t : String) :
    ∀ (es : List Elem), Svg.findByTypeList t true es = dfsMatches t es
  | [] => by simp [Svg.findByTypeList, dfsMatches]
  | Elem.rect i tr x y w h :: rest => by
      simp [Svg.findByTypeList, dfsMatches, findByTypeList_true_eq t rest]
  | Elem.polygon i tr pts :: rest => by
      simp [Svg.findByTypeList, dfsMatches, findByTypeList_true_eq t rest]
  | Elem.circle i tr cx cy r :: rest => by
      simp [Svg.findByTypeList, dfsMatches, findByTypeList_true_eq t rest]
  | Elem.path i tr d :: rest => by
      simp [Svg.findByTypeList, dfsMatches, findByTypeList_true_eq t rest]
  | Elem.g i tr cs :: rest => by
      simp [Svg.findByTypeList, dfsMatches, findByTypeList_true_eq t cs,
        findByTypeList_true_eq t rest]

/-! Claim theorems. -/

/-- C1: the claim says that with unique ids across the tree, findById
returns the element with the given id regardless of nesting depth, the
first top-level match winning.  The code instead lets every later
top-level element that is a direct match or a group overwrite the result,
so a trailing non-matching group resets an already-found match to null:
in the document with a rect of id a followed by an empty group, the ids
are unique and the id is present, yet findById returns null. -/
theorem findById_trailing_group_loses_match :
    (collectIds docTrailingGroup).Nodup
    ∧ hasId docTrailingGroup "a" = true
    ∧ Svg.findById ⟨docTrailingGroup⟩ "a" = none := by
  refine ⟨?_, ?_, ?_⟩
  · simp [docTrailingGroup, collectIds, Elem.idOf]
  · simp [hasId, docTrailingGroup, collectIds, Elem.idOf]
  · simp [docTrailingGroup, Svg.findById, Svg.findByIdGo, Elem.idOf]

/-- C7: toJSON maps element-wise over the owned sequence preserving
order: after setElements([a, b, c]), the produced document is the
elements wrapper around the three element serializations in that exact
order. -/
theorem toJSON_elementwise_in_order (a b c : Elem) :
    (Svg.toJSON (Svg.setElements ⟨[]⟩ [a, b, c]) false).elements
        = [Elem.toJSON a false, Elem.toJSON b false, Elem.toJSON c false]
    ∧ Svg.toJSON (Svg.setElements ⟨[]⟩ [a, b, c]) false
        = ⟨[Elem.toJSON a false, Elem.toJSON b false, Elem.toJSON c false]⟩ :=
  ⟨rfl, rfl⟩

/-- C8: toString with the wrap flag serializes the full svg document
built by toXml, while without it the result is the plain join of each
element fragment string in sequence order, with no wrapping tag. -/
theorem toString_wrap_asymmetry (s : Svg) (m : Bool) :
    Svg.toString s true m = XmlNode.toString (Svg.toXml s m)
    ∧ Svg.toString s false m
        = String.join (s.elements.map (fun e => XmlNode.toString (Elem.toXml e m))) := by
  constructor
  · rfl
  · show s.elements.foldl (fun str e => str ++ (Elem.toXml e m).toString) "" = _
    rw [foldl_string_fragments m s.elements ""]
    exact String.empty_append _

/-- C9: the claim says every construction entry point reports failure
through the error-first callback and never throws on malformed input.
fromJsonString calls JSON.parse outside any try or catch, so a malformed
string makes the exception escape and the callback never runs, while a
well-formed string reaches the callback: the first conjunct exhibits the
throwing run, the second the error-first success run. -/
theorem fromJsonString_throws_on_malformed :
    Svg.fromJsonString "not json" = Outcome.threw "SyntaxError: Unexpected token"
    ∧ Svg.fromJsonString "\x7b\x7d" = Outcome.ok ⟨[]⟩ :=
  ⟨rfl, rfl⟩

/-- C10: an empty matrix array composes nothing onto the freshly
constructed base matrix, so the base transform is the identity and the
whole pipeline behaves exactly as with a null argument. -/
theorem applyMatrix_empty_list_is_null :
    baseMatrix (MatrixArg.many []) = AffMatrix.identity
    ∧ ∀ (s : Svg) (sched : List Nat),
        Svg.applyMatrix s (MatrixArg.many []) sched
          = Svg.applyMatrix s MatrixArg.null sched :=
  ⟨rfl, fun _ _ => rfl⟩

/-- C2: the claim says all top-level matches precede matches discovered
inside groups.  The code instead appends the matches a group yields right
where the group sits in the scan, so in a document whose group precedes a
top-level rect, the nested rect comes out first: the result is the
reverse of what the claim predicts. -/
theorem findByType_group_matches_interleave :
    Svg.findByType ⟨[Elem.g none none [rect1], rect2]⟩ "rect" true = Svg.mk [rect1, rect2]
    ∧ ([rect1, rect2] : List Elem) ≠ [rect2, rect1] := by
  constructor
  · simp [Svg.findByType, Svg.findByTypeList, rect1, rect2, Elem.typeOf]
  · intro h
    exact absurd (congrArg (fun l => l.map Elem.idOf) h) (by decide)

/-- C2 amended: findByType with the all flag off returns exactly the
matching top-level elements in encounter order; with the flag on it
returns the interleaved depth-first traversal in which each top-level
element is followed immediately by the matches found inside it, so
matches inside an earlier group precede later top-level matches. -/
theorem findByType_depth_first_interleaved (s : Svg) (t : String) :
    Svg.findByType s t false = Svg.mk (topMatches t s.elements)
    ∧ Svg.findByType s t true = Svg.mk (dfsMatches t s.elements) := by
  constructor
  · simp [Svg.findByType, findByTypeList_false_eq]
  · simp [Svg.findByType, findByTypeList_true_eq]

/-- C3: the claim says a failing element makes applyMatrix report the
failure to the caller.  The chains have no error channel at all: the
element callbacks carry no error argument and the completion callback is
invoked with only the new document, so a chain that fails never signals
completion and the callback never fires.  Here a two-element document
with one failing path element produces no callback invocation at all:
the caller receives neither a failure report nor any document. -/
theorem applyMatrix_failure_never_reported :
    Svg.applyMatrix ⟨[rectA, Elem.path none none "M0"]⟩ MatrixArg.null [0, 1] = none := rfl

/-- C3 amended: applyMatrix is all-or-nothing with no failure report:
for any completion schedule covering the document once, the callback is
never invoked exactly when some element chain fails, and when it is
invoked the delivered document has exactly one output per input, never a
partial document. -/
theorem applyMatrix_all_or_nothing (s : Svg) (arg : MatrixArg) (sched : List Nat)
    (hp : sched.Perm (List.range s.elements.length)) :
    (Svg.applyMatrix s arg sched = none ↔
      ∃ e ∈ s.elements, transformChain (baseMatrix arg) e = none)
    ∧ ∀ out, Svg.applyMatrix s arg sched = some out →
        out.elements.length = s.elements.length := by
  constructor
  · have h0 : Svg.applyMatrix s arg sched = none ↔
        collectChains (baseMatrix arg) s.elements sched = none := by
      unfold Svg.applyMatrix
      exact Option.map_eq_none'
    rw [h0, collectChains_none_iff]
    constructor
    · rintro ⟨i, hi, hnone⟩
      have hlt : i < s.elements.length := by
        have hmem := hp.mem_iff.mp hi
        simpa [List.mem_range] using hmem
      rw [List.get?_eq_get hlt, Option.some_bind] at hnone
      exact ⟨s.elements.get ⟨i, hlt⟩, List.get_mem _ _ _, hnone⟩
    · rintro ⟨e, he, hnone⟩
      obtain ⟨⟨i, hlt⟩, hget⟩ := List.mem_iff_get.mp he
      refine ⟨i, hp.mem_iff.mpr (List.mem_range.mpr hlt), ?_⟩
      rw [List.get?_eq_get hlt, Option.some_bind, hget, hnone]
  · intro out hout
    have hc := (applyMatrix_eq_some s arg sched out).mp hout
    rw [collectChains_length _ _ _ _ hc, hp.length_eq, List.length_range]

/-- C3 amended, witness at a concrete one-element document. -/
theorem applyMatrix_all_or_nothing_witness :
    ([0] : List Nat).Perm (List.range (Svg.mk [rectA]).elements.length)
    ∧ ((Svg.applyMatrix ⟨[rectA]⟩ MatrixArg.null [0] = none ↔
          ∃ e ∈ (Svg.mk [rectA]).elements,
            transformChain (baseMatrix MatrixArg.null) e = none)
        ∧ ∀ out, Svg.applyMatrix ⟨[rectA]⟩ MatrixArg.null [0] = some out →
            out.elements.length = (Svg.mk [rectA]).elements.length) :=
  ⟨by decide, applyMatrix_all_or_nothing ⟨[rectA]⟩ MatrixArg.null [0] (by decide)⟩

/-- C4: under any completion schedule covering the document once, a
delivered document lists the per-chain outputs in schedule order, has
exactly one output per input element, and is a permutation of the
input-order outputs; and two different completion orders of the same
document deliver differently ordered documents, so the output order is
fixed by completion order, not by input order. -/
theorem applyMatrix_order_is_completion_order :
    (∀ (s : Svg) (arg : MatrixArg) (sched : List Nat) (out tout : Svg),
        sched.Perm (List.range s.elements.length) →
        Svg.applyMatrix s arg sched = some out →
        Svg.applyMatrix s arg (List.range s.elements.length) = some tout →
        out.elements
            = sched.map (fun i =>
                ((s.elements.get? i).bind (transformChain (baseMatrix arg))).getD default)
          ∧ out.elements.length = s.elements.length
          ∧ out.elements.Perm tout.elements)
    ∧ Svg.applyMatrix ⟨[rectA, rectB]⟩ MatrixArg.null [1, 0]
        ≠ Svg.applyMatrix ⟨[rectA, rectB]⟩ MatrixArg.null [0, 1] := by
  constructor
  · intro s arg sched out tout hp hout htout
    have hco := (applyMatrix_eq_some s arg sched out).mp hout
    have hct := (applyMatrix_eq_some s arg (List.range s.elements.length) tout).mp htout
    have hall := collectChains_some_forall _ _ _ _ hco
    have hgs : ∀ i ∈ sched,
        (s.elements.get? i).bind (transformChain (baseMatrix arg))
          = some (((s.elements.get? i).bind (transformChain (baseMatrix arg))).getD default) := by
      intro i hi
      obtain ⟨e2, he2⟩ := hall i hi
      rw [he2]
      rfl
    have hgr : ∀ i ∈ List.range s.elements.length,
        (s.elements.get? i).bind (transformChain (baseMatrix arg))
          = some (((s.elements.get? i).bind (transformChain (baseMatrix arg))).getD default) :=
      fun i hi => hgs i (hp.mem_iff.mpr hi)
    have h1 : out.elements = sched.map (fun i =>
        ((s.elements.get? i).bind (transformChain (baseMatrix arg))).getD default) := by
      have hm := collectChains_map (baseMatrix arg) s.elements _ sched hgs
      rw [hco] at hm
      exact Option.some.inj hm
    have h2 : tout.elements = (List.range s.elements.length).map (fun i =>
        ((s.elements.get? i).bind (transformChain (baseMatrix arg))).getD default) := by
      have hm := collectChains_map (baseMatrix arg) s.elements _ _ hgr
      rw [hct] at hm
      exact Option.some.inj hm
    refine ⟨h1, ?_, ?_⟩
    · rw [h1, List.length_map, hp.length_eq, List.length_range]
    · rw [h1, h2]
      exact hp.map _
  · intro h
    exact absurd
      (congrArg (fun o : Option Svg => o.map (fun sv => sv.elements.map Elem.idOf)) h)
      (by decide)

/-- C4, witness: the swapped completion schedule on a concrete
two-rectangle document delivers the swapped outputs. -/
theorem applyMatrix_order_is_completion_order_witness :
    ([1, 0] : List Nat).Perm (List.range (Svg.mk [rectA, rectB]).elements.length)
    ∧ ((Svg.mk [polyB, polyA]).elements
          = [1, 0].map (fun i =>
              (((Svg.mk [rectA, rectB]).elements.get? i).bind
                (transformChain (baseMatrix MatrixArg.null))).getD default)
        ∧ (Svg.mk [polyB, polyA]).elements.length = (Svg.mk [rectA, rectB]).elements.length
        ∧ (Svg.mk [polyB, polyA]).elements.Perm (Svg.mk [polyA, polyB]).elements) :=
  ⟨by decide,
    applyMatrix_order_is_completion_order.1 ⟨[rectA, rectB]⟩ MatrixArg.null [1, 0]
      ⟨[polyB, polyA]⟩ ⟨[polyA, polyB]⟩ (by decide) rfl rfl⟩

/-- C5: every cell the caller holds before the call, in particular the
caller-supplied base matrix object, has the same value after applyMatrix
completes, and the clone references mutated by the per-element chains
are pairwise distinct and strictly fresher than every caller cell: no
two chains compose onto a shared matrix object. -/
theorem applyMatrix_clones_before_composing (s : MStore) (arg : MatrixArgRef)
    (elems : List Elem) :
    (∀ j, j < s.cells.length →
        (Svg.applyMatrixStore s arg elems).1.read j = s.read j)
    ∧ (Svg.applyMatrixStore s arg elems).2.Nodup
    ∧ ∀ q ∈ (Svg.applyMatrixStore s arg elems).2, s.cells.length < q := by
  obtain ⟨h1, h2, h3, h4⟩ := runChains_spec (s.setupBase arg).2 elems (s.setupBase arg).1
  refine ⟨?_, h4, ?_⟩
  · intro j hj
    unfold Svg.applyMatrixStore
    rw [h2 j (by rw [setupBase_length]; omega), setupBase_read_lt s arg j hj]
  · intro q hq
    unfold Svg.applyMatrixStore at hq
    have hge := (h3 q hq).1
    rw [setupBase_length] at hge
    omega

/-- C5, witness: one caller matrix aliased as the base, one rectangle
chain; the caller cell keeps its value and the chain clone is fresh. -/
theorem applyMatrix_clones_before_composing_witness :
    ((0 : Nat) < (MStore.mk [⟨2, 0, 0, 2, 5, 7⟩]).cells.length)
    ∧ (Svg.applyMatrixStore ⟨[⟨2, 0, 0, 2, 5, 7⟩]⟩ (MatrixArgRef.one 0)
          [Elem.rect none none 1 2 3 4]).1.read 0
        = MStore.read ⟨[⟨2, 0, 0, 2, 5, 7⟩]⟩ 0
    ∧ (Svg.applyMatrixStore ⟨[⟨2, 0, 0, 2, 5, 7⟩]⟩ (MatrixArgRef.one 0)
          [Elem.rect none none 1 2 3 4]).2.Nodup
    ∧ ∀ q ∈ (Svg.applyMatrixStore ⟨[⟨2, 0, 0, 2, 5, 7⟩]⟩ (MatrixArgRef.one 0)
          [Elem.rect none none 1 2 3 4]).2,
        (MStore.mk [⟨2, 0, 0, 2, 5, 7⟩]).cells.length < q := by
  obtain ⟨h1, h2, h3⟩ := applyMatrix_clones_before_composing ⟨[⟨2, 0, 0, 2, 5, 7⟩]⟩
    (MatrixArgRef.one 0) [Elem.rect none none 1 2 3 4]
  exact ⟨by decide, h1 0 (by decide), h2, h3⟩

/-- C6: a two-matrix array argument behaves exactly like the single
matrix equal to the first composed with the second via add, in that
order, for every document and schedule; and composition is
order-sensitive: swapping a translation and a scaling changes the
delivered document. -/
theorem applyMatrix_list_pre_composes :
    (∀ (m1 m2 : AffMatrix) (s : Svg) (sched : List Nat),
        Svg.applyMatrix s (MatrixArg.many [m1, m2]) sched
          = Svg.applyMatrix s (MatrixArg.one (AffMatrix.add m1 m2)) sched)
    ∧ Svg.applyMatrix ⟨[rectA]⟩ (MatrixArg.many [mTr, mSc]) [0]
        ≠ Svg.applyMatrix ⟨[rectA]⟩ (MatrixArg.many [mSc, mTr]) [0] := by
  constructor
  · intro m1 m2 s sched
    unfold Svg.applyMatrix
    rw [baseMatrix_pair]
    rfl
  · intro h
    exact absurd
      (congrArg (fun o : Option Svg => o.map (fun sv => sv.elements.map Elem.trOf)) h)
      (by decide)
